import Mathlib

/-!
Verification of the Resume-Parser repository (files `resume_parser.py`,
`advanced_parser.py`, `utils.py`, `main.py`) against its natural-language
specification.  The Python functions relevant to the claims are shallowly
embedded as executable Lean definitions; machine text is modelled as
`String` / `List Char`, Python `None`-able values as `Option`, Python
dictionaries as association lists, and raised exceptions as error values.

Note on the source: `resume_parser.py` line 281 (`degree_text = ...`) is
over-indented relative to the rest of its loop body, which the spec's design
notes flag as a copy-paste artifact to be read as a uniformly indented loop.
All embeddings below read the block that way.
-/

/-! ## Basic character and string helpers (Python semantics) -/

/-- Characters treated as whitespace by Python's `str.strip()` (ASCII part). -/
def isSpaceCh (c : Char) : Bool :=
  c = ' ' || c = '\t' || c = '\n' || c = '\x0d' || c = '\x0b' || c = '\x0c'

/-- Python `str.strip()` on a character list: drop whitespace from both ends. -/
def pyStripChars (cs : List Char) : List Char :=
  ((cs.dropWhile isSpaceCh).reverse.dropWhile isSpaceCh).reverse

/-- Python `str.strip()`. -/
def pyStrip (s : String) : String :=
  String.mk (pyStripChars s.toList)

/-- Python `str.lower()` on a character list. -/
def lowerChars (cs : List Char) : List Char :=
  cs.map Char.toLower

/-- Test whether `needle` occurs at the head of `hay` (used for Python's
substring operator). -/
def leadsWith : List Char → List Char → Bool
  | [], _ => true
  | _ :: _, [] => false
  | a :: as, b :: bs => a = b && leadsWith as bs

/-- Python's substring operator `needle in hay` on character lists. -/
def seqIn (needle : List Char) : List Char → Bool
  | [] => needle.isEmpty
  | c :: rest => leadsWith needle (c :: rest) || seqIn needle rest

/-- First `some` result of `f` over a list, mirroring a Python `for` loop
with `break` on first hit. -/
def findFirstSome {α β : Type} (f : α → Option β) : List α → Option β
  | [] => none
  | a :: as =>
    match f a with
    | some b => some b
    | none => findFirstSome f as

/-! ## Section segmenter (`ResumeParser.extract_sections`, resume_parser.py 139-170)

The source accumulates lines for the current section and stores
`'\n'.join(section_text)` into a Python dict when a new header line is hit.
We model the dict as an association list with in-place overwrite (Python
dict update keeps the original key position) and keep each block as the
list of its lines (the source's join with `'\n'` is a bijection on
newline-free lines, which is what `text.split('\n')` produces). -/

/-- The `section_headers` table from `ResumeParser.__init__` (lines 34-41),
in Python dict insertion order. -/
def sectionHeaders : List (String × List String) :=
  [("experience", ["experience", "employment", "work history", "professional experience", "career"]),
   ("education", ["education", "academic", "qualifications", "academic background"]),
   ("skills", ["skills", "technical skills", "competencies", "expertise", "technologies"]),
   ("projects", ["projects", "portfolio", "personal projects"]),
   ("certifications", ["certifications", "certificates", "licenses"]),
   ("summary", ["summary", "objective", "profile", "about me", "professional summary"])]

/-- Python `line.lower().strip()` from line 148. -/
def lowerTrim (line : String) : List Char :=
  pyStripChars (lowerChars line.toList)

/-- Whether the lowered, stripped line contains one of the keywords
(`any(keyword in line_lower for keyword in keywords)`, line 153). -/
def lineTriggers (line : String) (kws : List String) : Bool :=
  kws.any fun kw => seqIn kw.toList (lowerTrim line)

/-- Scan the section-header table in declared order and return the first
section whose keyword list matches the line (lines 152-161). -/
def findSection (line : String) : Option String :=
  findFirstSome
    (fun se => if lineTriggers line se.2 then some se.1 else none)
    sectionHeaders

/-- Association-list insert with Python-dict semantics: overwrite the value
in place if the key exists, otherwise append at the end. -/
def dictInsert (k : String) (v : List String) :
    List (String × List String) → List (String × List String)
  | [] => [(k, v)]
  | p :: rest => if p.1 = k then (k, v) :: rest else p :: dictInsert k v rest

/-- Segmenter loop state: current section label, accumulated lines, and the
sections dict built so far. -/
structure SegState where
  current : String
  acc : List String
  secs : List (String × List String)

/-- Save the accumulated block under the current label, skipping the save
when the accumulator is empty (`if section_text:` at lines 155 and 167). -/
def flushSection (st : SegState) : List (String × List String) :=
  if st.acc.isEmpty then st.secs else dictInsert st.current st.acc st.secs

/-- One iteration of the segmenter's line loop (lines 147-164). -/
def segStep (st : SegState) (line : String) : SegState :=
  match findSection line with
  | some nm => { current := nm, acc := [], secs := flushSection st }
  | none => { current := st.current, acc := st.acc ++ [line], secs := st.secs }

/-- The segmenter `extract_sections`, operating on the list of lines
produced by `text.split('\n')` (lines 139-170). -/
def extractSections (lines : List String) : List (String × List String) :=
  flushSection (lines.foldl segStep { current := "header", acc := [], secs := [] })

/-- Concatenation of all section blocks, in dict order. -/
def blocksConcat (secs : List (String × List String)) : List String :=
  secs.foldr (fun p r => p.2 ++ r) []

/-- Keys of the sections dict. -/
def secKeys (secs : List (String × List String)) : List String :=
  secs.map Prod.fst

theorem dictInsert_of_not_mem (k : String) (v : List String) :
    ∀ s : List (String × List String), k ∉ secKeys s → dictInsert k v s = s ++ [(k, v)]
  | [], _ => rfl
  | p :: rest, h => by
    have hk : p.1 ≠ k := by
      intro he; exact h (by simp [secKeys, he])
    have hrest : k ∉ secKeys rest := by
      intro hm; exact h (by simp [secKeys] at hm ⊢; exact Or.inr hm)
    simp [dictInsert, hk, dictInsert_of_not_mem k v rest hrest]

theorem blocksConcat_append (s t : List (String × List String)) :
    blocksConcat (s ++ t) = blocksConcat s ++ blocksConcat t := by
  induction s with
  | nil => rfl
  | cons p rest ih => simp [blocksConcat, List.foldr] at ih ⊢; simp [ih]

theorem mem_secKeys_dictInsert (k k' : String) (v : List String) :
    ∀ s : List (String × List String),
      k' ∈ secKeys (dictInsert k v s) → k' = k ∨ k' ∈ secKeys s
  | [], h => by simpa [dictInsert, secKeys] using h
  | p :: rest, h => by
    by_cases he : p.1 = k
    · simp [dictInsert, he, secKeys] at h
      rcases h with h | h
      · exact Or.inl h
      · exact Or.inr (by simp [secKeys]; exact Or.inr h)
    · simp [dictInsert, he, secKeys] at h ⊢
      rcases h with h | h
      · exact Or.inr (Or.inl h)
      · rcases mem_secKeys_dictInsert k k' v rest (by simpa [secKeys] using h) with h2 | h2
        · exact Or.inl h2
        · exact Or.inr (Or.inr (by simpa [secKeys] using h2))

theorem mem_secKeys_flushSection (st : SegState) (k' : String)
    (h : k' ∈ secKeys (flushSection st)) : k' ∈ secKeys st.secs ∨ k' = st.current := by
  unfold flushSection at h
  split at h
  · exact Or.inl h
  · rcases mem_secKeys_dictInsert st.current k' st.acc st.secs h with h2 | h2
    · exact Or.inr h2
    · exact Or.inl h2

theorem blocksConcat_flushSection (st : SegState) (h : st.current ∉ secKeys st.secs) :
    blocksConcat (flushSection st) = blocksConcat st.secs ++ st.acc := by
  unfold flushSection
  split
  · next he => simp_all [List.isEmpty_iff]
  · rw [dictInsert_of_not_mem st.current st.acc st.secs h, blocksConcat_append]
    simp [blocksConcat]

theorem findFirstSome_mem {α β : Type} (f : α → Option β) :
    ∀ (xs : List α) (b : β), findFirstSome f xs = some b → ∃ a ∈ xs, f a = some b
  | [], b, h => by simp [findFirstSome] at h
  | a :: as, b, h => by
    unfold findFirstSome at h
    cases hfa : f a with
    | some b' =>
      rw [hfa] at h
      exact ⟨a, by simp, by simp [hfa, ← h]⟩
    | none =>
      rw [hfa] at h
      obtain ⟨a', ha', hfa'⟩ := findFirstSome_mem f as b h
      exact ⟨a', by simp [ha'], hfa'⟩

theorem findSection_ne_header (l : String) (nm : String)
    (h : findSection l = some nm) : nm ≠ "header" := by
  obtain ⟨se, hse, hf⟩ := findFirstSome_mem _ sectionHeaders nm h
  have : nm = se.1 := by
    by_cases ht : lineTriggers l se.2 = true
    · simp [ht] at hf; exact hf.symm
    · simp [ht] at hf
  subst this
  simp [sectionHeaders] at hse
  rcases hse with rfl | rfl | rfl | rfl | rfl | rfl <;> decide

theorem segFold_concat :
    ∀ (lines : List String) (st : SegState),
      st.current ∉ secKeys st.secs →
      (∀ l ∈ lines, ∀ nm, findSection l = some nm →
        nm ∉ secKeys st.secs ∧ nm ≠ st.current) →
      (lines.filterMap findSection).Nodup →
      blocksConcat (flushSection (lines.foldl segStep st)) =
        blocksConcat st.secs ++ st.acc ++
          lines.filter (fun l => (findSection l).isNone)
  | [], st, h1, _, _ => by
    simp [List.foldl, blocksConcat_flushSection st h1]
  | l :: ls, st, h1, h2, h3 => by
    rw [List.foldl_cons]
    cases hf : findSection l with
    | none =>
      have hstep : segStep st l =
          { current := st.current, acc := st.acc ++ [l], secs := st.secs } := by
        simp [segStep, hf]
      rw [hstep]
      have ih := segFold_concat ls
        { current := st.current, acc := st.acc ++ [l], secs := st.secs }
        h1 (fun l' hl' nm hnm => h2 l' (by simp [hl']) nm hnm)
        (by simpa [List.filterMap_cons, hf] using h3)
      rw [ih]
      simp [List.filter_cons, hf, List.append_assoc]
    | some nm =>
      have hstep : segStep st l =
          { current := nm, acc := [], secs := flushSection st } := by
        simp [segStep, hf]
      rw [hstep]
      obtain ⟨hnm1, hnm2⟩ := h2 l (by simp) nm hf
      have hcur' : nm ∉ secKeys (flushSection st) := by
        intro hmem
        rcases mem_secKeys_flushSection st nm hmem with h | h
        · exact hnm1 h
        · exact hnm2 h
      have hnodup' : (ls.filterMap findSection).Nodup := by
        have := h3
        simp [List.filterMap_cons, hf] at this
        exact this.2
      have hnotin : ∀ l' ∈ ls, findSection l' ≠ some nm := by
        have := h3
        simp [List.filterMap_cons, hf] at this
        exact this.1
      have h2' : ∀ l' ∈ ls, ∀ nm', findSection l' = some nm' →
          nm' ∉ secKeys (flushSection st) ∧ nm' ≠ nm := by
        intro l' hl' nm' hnm'
        obtain ⟨ha, hb⟩ := h2 l' (by simp [hl']) nm' hnm'
        constructor
        · intro hmem
          rcases mem_secKeys_flushSection st nm' hmem with h | h
          · exact ha h
          · exact hb h
        · intro he
          subst he
          exact hnotin l' hl' hnm'
      have ih := segFold_concat ls
        { current := nm, acc := [], secs := flushSection st }
        hcur' h2' hnodup'
      rw [ih]
      simp [blocksConcat_flushSection st h1, List.filter_cons, hf, List.append_assoc]

/-- Claim C2 (counterexample): the segmenter does NOT partition the input
lines when the same section label is triggered more than once.  In the input
below, "A" is a non-trigger line, yet it appears in no produced block: the
second "skills" trigger makes the final flush overwrite the block that held
"A". -/
theorem c2_counterexample :
    findSection "A" = none ∧
    extractSections ["skills", "A", "experience", "B", "skills", "C"] =
      [("skills", ["C"]), ("experience", ["B"])] ∧
    "A" ∉ blocksConcat (extractSections ["skills", "A", "experience", "B", "skills", "C"]) := by
  refine ⟨by decide, by decide, by decide⟩

/-- Claim C2 (amended): provided no section label is triggered more than
once, the concatenation of the produced blocks is exactly the list of
non-trigger lines in order: every non-trigger line appears in exactly one
block, trigger lines are consumed, and a section persists until the next
recognized header or end of text.  (When a label repeats, the later block
overwrites the earlier one and its lines are lost.) -/
theorem c2_partition (lines : List String)
    (h : (lines.filterMap findSection).Nodup) :
    blocksConcat (extractSections lines) =
      lines.filter (fun l => (findSection l).isNone) := by
  unfold extractSections
  have := segFold_concat lines { current := "header", acc := [], secs := [] }
    (by simp [secKeys])
    (by
      intro l hl nm hnm
      exact ⟨by simp [secKeys], findSection_ne_header l nm hnm⟩)
    h
  simpa [blocksConcat] using this

/-- Witness for `c2_partition` at a concrete resume-shaped input. -/
theorem c2_partition_witness :
    blocksConcat (extractSections ["Jane Doe", "", "skills", "python", "experience", "Engineer at Acme"]) =
      ["Jane Doe", "", "python", "Engineer at Acme"] := by
  have h := c2_partition ["Jane Doe", "", "skills", "python", "experience", "Engineer at Acme"]
    (by decide)
  rw [h]
  decide

/-! ## Education year extraction (`ResumeParser.extract_education`, lines 303-311)

The source runs `re.findall(self.patterns['year'], context)` with
`patterns['year'] = r'\b(19|20)\d{2}\b'`.  Because the pattern contains a
capturing group, Python's `re.findall` returns the text of the GROUP for
each match — the two-character strings `"19"` / `"20"` — not the
four-digit year. -/

/-- Python regex word character (`\w` for ASCII text): alphanumeric or
underscore. -/
def isWordCh (c : Char) : Bool :=
  c.isAlphanum || c = '_'

/-- Word-boundary condition after the fourth digit of a candidate year
match (`\b` with a word character on the left). -/
def yearAfterOk : List Char → Bool
  | [] => true
  | c :: _ => !(isWordCh c)

/-- Left-to-right non-overlapping scan of `re.findall(r'\b(19|20)\d{2}\b', s)`,
returning the captured group of each match.  `prevW` records whether the
character before the current position is a word character (for `\b`). -/
def scanYears : Bool → List Char → List String
  | prevW, c1 :: c2 :: c3 :: c4 :: rest =>
    if !prevW && ((c1 = '1' && c2 = '9') || (c1 = '2' && c2 = '0'))
        && c3.isDigit && c4.isDigit && yearAfterOk rest then
      String.mk [c1, c2] :: scanYears true rest
    else
      scanYears (isWordCh c1) (c2 :: c3 :: c4 :: rest)
  | _, _ => []

/-- Python `int()` on a digit string. -/
def strToNatDigits (s : String) : ℕ :=
  s.toList.foldl (fun n c => n * 10 + (c.toNat - '0'.toNat)) 0

/-- The year field computed for one education entry from its ±200-character
context window (`extract_education`, lines 303-311): findall the year
pattern, convert to ints, keep those in `[1950, current_year]`, and take the
maximum (else `None`). -/
def eduYear (context : String) (currentYear : ℕ) : Option String :=
  let yearMatches := scanYears false context.toList
  let years := yearMatches.map strToNatDigits
  let validYears := years.filter fun y => 1950 ≤ y && y ≤ currentYear
  match validYears with
  | [] => none
  | y :: ys => some (toString ((y :: ys).foldl max y))

theorem scanYears_mem :
    ∀ (cs : List Char) (prevW : Bool) (s : String),
      s ∈ scanYears prevW cs → s = "19" ∨ s = "20"
  | c1 :: c2 :: c3 :: c4 :: rest, prevW, s, h => by
    unfold scanYears at h
    split at h
    · next hc =>
      simp only [List.mem_cons] at h
      rcases h with h | h
      · subst h
        simp only [Bool.and_eq_true, Bool.or_eq_true, decide_eq_true_eq] at hc
        obtain ⟨⟨⟨⟨_, hOr⟩, _⟩, _⟩, _⟩ := hc
        rcases hOr with ⟨h1, h2⟩ | ⟨h1, h2⟩
        · left
          rw [h1, h2]
        · right
          rw [h1, h2]
      · exact scanYears_mem rest true s h
    · exact scanYears_mem (c2 :: c3 :: c4 :: rest) (isWordCh c1) s h
  | [], _, s, h => by simp [scanYears] at h
  | [c1], _, s, h => by simp [scanYears] at h
  | [c1, c2], _, s, h => by simp [scanYears] at h
  | [c1, c2, c3], _, s, h => by simp [scanYears] at h

/-- Claim C1: the education extractor's year field is ALWAYS `None`.
`re.findall` with the grouped pattern `\b(19|20)\d{2}\b` yields only the
captured strings `"19"` / `"20"`, whose integer values 19 and 20 never pass
the `1950 <= y <= current_year` filter.  In particular the spec's worked
example cannot yield `year="2015"`. -/
theorem c1_eduYear_always_none :
    (∀ (context : String) (currentYear : ℕ), eduYear context currentYear = none) ∧
    eduYear "Bachelor of Science in Computer Science, State University, 2015\nGPA: 3.8" 2026 = none := by
  have hmain : ∀ (context : String) (currentYear : ℕ), eduYear context currentYear = none := by
    intro context currentYear
    unfold eduYear
    have hfilter :
        (List.map strToNatDigits (scanYears false context.toList)).filter
          (fun y => 1950 ≤ y && y ≤ currentYear) = [] := by
      rw [List.filter_eq_nil_iff]
      intro y hy
      obtain ⟨s, hs, rfl⟩ := List.mem_map.1 hy
      rcases scanYears_mem context.toList false s hs with rfl | rfl
      · have h19 : strToNatDigits "19" = 19 := by decide
        rw [h19]
        simp
      · have h20 : strToNatDigits "20" = 20 := by decide
        rw [h20]
        simp
    simp only [hfilter]
  exact ⟨hmain, hmain _ _⟩

/-! ## Completeness scorer (`ResumeParser.calculate_score`, lines 509-544)

Python floats are modelled as exact rationals; all arithmetic in the scorer
is exact in the float range involved.  The parsed data is represented by
the counts the scorer actually reads: presence of the three contact fields
and the lengths of the experience, education and skills lists. -/

/-- The fields of `parsed_data` read by `calculate_score`. -/
structure ParsedCounts where
  hasName : Bool
  hasEmail : Bool
  hasPhone : Bool
  expCount : ℕ
  eduCount : ℕ
  skillsCount : ℕ

/-- Number of present contact fields among name, email, phone (line 521). -/
def contactCount (pd : ParsedCounts) : ℕ :=
  (if pd.hasName then 1 else 0) + (if pd.hasEmail then 1 else 0) +
    (if pd.hasPhone then 1 else 0)

/-- The five scores returned by `calculate_score`. -/
structure Scores where
  contact_info : ℚ
  experience : ℚ
  education : ℚ
  skills : ℚ
  overall : ℚ

/-- The scorer `calculate_score` (lines 509-544). -/
def calculate_score (pd : ParsedCounts) : Scores :=
  let ci : ℚ := ((contactCount pd : ℚ) / 3) * 100
  let ex : ℚ := min 100 ((pd.expCount : ℚ) * 25)
  let ed : ℚ := min 100 ((pd.eduCount : ℚ) * 50)
  let sk : ℚ := min 100 ((pd.skillsCount : ℚ) * 5)
  { contact_info := ci
    experience := ex
    education := ed
    skills := sk
    overall := ci * 0.2 + ex * 0.3 + ed * 0.2 + sk * 0.3 }

/-- Claim C5: every sub-score and the overall score lie in [0, 100], for any
input counts including all-zero, and the overall score equals the weighted
sum of the four sub-scores with weights 0.2, 0.3, 0.2, 0.3. -/
theorem c5_calculate_score_bounds (pd : ParsedCounts) :
    (0 ≤ (calculate_score pd).contact_info ∧ (calculate_score pd).contact_info ≤ 100) ∧
    (0 ≤ (calculate_score pd).experience ∧ (calculate_score pd).experience ≤ 100) ∧
    (0 ≤ (calculate_score pd).education ∧ (calculate_score pd).education ≤ 100) ∧
    (0 ≤ (calculate_score pd).skills ∧ (calculate_score pd).skills ≤ 100) ∧
    (calculate_score pd).overall =
      0.2 * (calculate_score pd).contact_info + 0.3 * (calculate_score pd).experience +
        0.2 * (calculate_score pd).education + 0.3 * (calculate_score pd).skills ∧
    (0 ≤ (calculate_score pd).overall ∧ (calculate_score pd).overall ≤ 100) := by
  have hp1 : (calculate_score pd).contact_info = ((contactCount pd : ℚ) / 3) * 100 := rfl
  have hp2 : (calculate_score pd).experience = min 100 ((pd.expCount : ℚ) * 25) := rfl
  have hp3 : (calculate_score pd).education = min 100 ((pd.eduCount : ℚ) * 50) := rfl
  have hp4 : (calculate_score pd).skills = min 100 ((pd.skillsCount : ℚ) * 5) := rfl
  have hp5 : (calculate_score pd).overall =
      (calculate_score pd).contact_info * 0.2 + (calculate_score pd).experience * 0.3 +
        (calculate_score pd).education * 0.2 + (calculate_score pd).skills * 0.3 := rfl
  have hc3 : (contactCount pd : ℚ) ≤ 3 := by
    have : contactCount pd ≤ 3 := by
      unfold contactCount
      split_ifs <;> omega
    exact_mod_cast this
  have hc0 : (0 : ℚ) ≤ (contactCount pd : ℚ) := by positivity
  have hci0 : (0 : ℚ) ≤ ((contactCount pd : ℚ) / 3) * 100 := by positivity
  have hci100 : ((contactCount pd : ℚ) / 3) * 100 ≤ 100 := by
    calc ((contactCount pd : ℚ) / 3) * 100 ≤ ((3 : ℚ) / 3) * 100 := by gcongr
    _ = 100 := by norm_num
  have hmin : ∀ (q : ℚ), 0 ≤ q → 0 ≤ min 100 q ∧ min 100 q ≤ 100 := by
    intro q hq
    exact ⟨le_min (by norm_num) hq, min_le_left _ _⟩
  have hex := hmin ((pd.expCount : ℚ) * 25) (by positivity)
  have hed := hmin ((pd.eduCount : ℚ) * 50) (by positivity)
  have hsk := hmin ((pd.skillsCount : ℚ) * 5) (by positivity)
  rw [hp1, hp2, hp3, hp4, hp5, hp1, hp2, hp3, hp4]
  refine ⟨⟨hci0, hci100⟩, hex, hed, hsk, by ring, ?_, ?_⟩
  · nlinarith [hci0, hex.1, hed.1, hsk.1]
  · nlinarith [hci100, hex.2, hed.2, hsk.2]

/-! ## Orchestrator error handling (`ResumeParser.parse`, lines 546-581)

`parse` wraps its body in `try/except`: a raised read error is converted at
line 579-581 into `{'error': str(e), 'file': file_path}`, while the
empty-text check at lines 553-554 returns `{'error': '...'}` WITHOUT a
`'file'` key.  The file reader is modelled as its result (`Except`): error
for a raised `UnsupportedFormat`/decode failure, ok for extracted text.
The per-field extractors are total, so the success branch is abstracted to
a single constructor. -/

/-- Outcome of `parse` as seen at the orchestrator boundary: a success
record, or an error dict with its message and optional `'file'` entry. -/
inductive ParseOutcome where
  | success : ParseOutcome
  | errorResult : String → Option String → ParseOutcome
deriving DecidableEq

/-- Whether the outcome is an error-tagged result. -/
def ParseOutcome.isErrorTagged : ParseOutcome → Bool
  | .success => false
  | .errorResult _ _ => true

/-- The `'file'` entry carried by the outcome, if any. -/
def ParseOutcome.fileTag : ParseOutcome → Option String
  | .success => none
  | .errorResult _ f => f

/-- The control flow of `parse` (lines 546-581) as a function of the file
path and the reader's outcome. -/
def parseModel (filePath : String) (readResult : Except String String) : ParseOutcome :=
  match readResult with
  | .error e => .errorResult e (some filePath)
  | .ok text =>
    if text = "" then
      .errorResult "No text could be extracted from the file" none
    else
      .success

/-- Claim C3 (counterexample): the empty-text error result produced at
lines 553-554 is error-tagged but does NOT carry the file identifier — only
the `except` branch at lines 579-581 adds the `'file'` key. -/
theorem c3_counterexample :
    (parseModel "resume.txt" (Except.ok "")).isErrorTagged = true ∧
    (parseModel "resume.txt" (Except.ok "")).fileTag = none := by
  exact ⟨rfl, rfl⟩

/-- Claim C3 (amended): `parse` on empty extracted text returns an
error-tagged result (never raises) carrying the error message but no file
identifier; error results from the exception path carry both the message
and the file identifier. -/
theorem c3_parse_error_paths (filePath : String) (readResult : Except String String) :
    (readResult = Except.ok "" →
      parseModel filePath readResult =
        ParseOutcome.errorResult "No text could be extracted from the file" none) ∧
    (∀ e, readResult = Except.error e →
      parseModel filePath readResult = ParseOutcome.errorResult e (some filePath)) := by
  constructor
  · intro h
    subst h
    rfl
  · intro e h
    subst h
    rfl

/-- Witness for `c3_parse_error_paths` at concrete inputs. -/
theorem c3_parse_error_paths_witness :
    parseModel "resume.txt" (Except.ok "") =
      ParseOutcome.errorResult "No text could be extracted from the file" none ∧
    parseModel "resume.txt" (Except.error "Unsupported file format: xyz") =
      ParseOutcome.errorResult "Unsupported file format: xyz" (some "resume.txt") := by
  exact ⟨(c3_parse_error_paths "resume.txt" (Except.ok "")).1 rfl,
    (c3_parse_error_paths "resume.txt" (Except.error "Unsupported file format: xyz")).2
      "Unsupported file format: xyz" rfl⟩

/-! ## Experience-level analysis (`AdvancedResumeParser.analyze_experience_level`,
advanced_parser.py lines 144-181)

The module `advanced_parser.py` imports only `spacy`, `spacy.matcher.Matcher`,
`nltk`, `typing.Dict`, `typing.List` and `resume_parser.ResumeParser` — it
imports NEITHER `re` NOR `datetime` (and not `Optional`, which already makes
the module fail to import when the class body's annotations are evaluated).
`analyze_experience_level` returns `"Entry Level"` immediately for an empty
experience list, but for a non-empty list its first loop statement
`dates = re.findall(r'(\w+\s+\d{4})', duration)` raises
`NameError: name 're' is not defined`; the `try/except` inside the loop
starts only after that statement, so the NameError escapes.  A Python call
that either returns or raises is modelled as a sum. -/

/-- One experience entry as produced by `extract_experience` (the fields the
analyzer can read). -/
structure ExpEntry where
  position : Option String
  company : Option String
  duration : Option String
  location : Option String
  description : List String

/-- Result of a Python call: a returned value or a raised exception. -/
inductive PyResult (α : Type) where
  | ok : α → PyResult α
  | exn : String → PyResult α
deriving DecidableEq

/-- The `analyze_experience_level` method as written in the source: the
empty-list guard (lines 148-149) returns before any use of `re`, and any
non-empty list reaches `re.findall` (line 157), which raises `NameError`
because the module never imports `re`. -/
def analyze_experience_level (experience : List ExpEntry) : PyResult String :=
  match experience with
  | [] => .ok "Entry Level"
  | _ :: _ => .exn "NameError: name 're' is not defined"

/-- Claim C4: with an empty experience list the method returns
"Entry Level", but for EVERY non-empty experience list it raises instead of
returning a duration-derived label — `advanced_parser.py` never imports
`re` (nor `datetime`), so the claim's "without raising" fails on the first
loop iteration. -/
theorem c4_analyze_experience_level_raises :
    analyze_experience_level [] = PyResult.ok "Entry Level" ∧
    ∀ (e : ExpEntry) (es : List ExpEntry),
      analyze_experience_level (e :: es) =
        PyResult.exn "NameError: name 're' is not defined" := by
  exact ⟨rfl, fun _ _ => rfl⟩

/-! ## Skills database (`ResumeParser._load_skills_database`, lines 43-86) -/

/-- The full skills taxonomy, in Python dict/list order. -/
def skillsDb : List (String × List String) :=
  [("programming_languages",
    ["python", "java", "javascript", "typescript", "c++", "c#", "ruby",
     "go", "rust", "kotlin", "swift", "php", "scala", "r", "matlab",
     "perl", "shell", "bash", "powershell", "sql", "html", "css"]),
   ("web_frameworks",
    ["react", "angular", "vue.js", "node.js", "express.js", "django",
     "flask", "spring", "spring boot", "asp.net", "ruby on rails",
     "laravel", "symfony", "fastapi", "next.js", "nuxt.js"]),
   ("databases",
    ["mysql", "postgresql", "mongodb", "oracle", "sql server", "sqlite",
     "redis", "cassandra", "dynamodb", "elasticsearch", "neo4j", "couchdb"]),
   ("cloud_platforms",
    ["aws", "azure", "google cloud", "gcp", "heroku", "digitalocean",
     "alibaba cloud", "ibm cloud", "oracle cloud"]),
   ("devops_tools",
    ["docker", "kubernetes", "jenkins", "gitlab", "github actions",
     "terraform", "ansible", "puppet", "chef", "circleci", "travis ci"]),
   ("data_science",
    ["machine learning", "deep learning", "tensorflow", "pytorch",
     "scikit-learn", "pandas", "numpy", "keras", "opencv", "nlp",
     "computer vision", "data analysis", "statistics", "tableau", "power bi"]),
   ("mobile",
    ["android", "ios", "react native", "flutter", "xamarin", "ionic",
     "swift", "objective-c", "kotlin", "android studio", "xcode"]),
   ("tools",
    ["git", "svn", "mercurial", "jira", "confluence", "slack",
     "microsoft office", "excel", "powerpoint", "word", "outlook"]),
   ("soft_skills",
    ["leadership", "communication", "teamwork", "problem solving",
     "project management", "agile", "scrum", "kanban", "analytical",
     "critical thinking", "time management", "collaboration"])]

/-! ## Experience description collection (`ResumeParser.extract_experience`,
lines 404-413)

For each job entry the extractor walks the entry's lines after the first:
a stripped line starting with a bullet marker (or `N.`) has the marker
stripped and is appended unconditionally (when non-empty after stripping);
a non-bullet non-empty line is appended only while fewer than 5 description
lines have been gathered.  The loop is embedded as a fold so the claim can
be settled for every entry the extractor produces. -/

/-- Test for `re.match(r'^\d+\.', line)`: one or more digits then a dot. -/
def numDotStart : List Char → Bool
  | [] => false
  | c :: rest =>
    c.isDigit &&
      (match rest.dropWhile Char.isDigit with
       | '.' :: _ => true
       | _ => false)

/-- The bullet test at line 407: `line.startswith(('•','-','▪','→'))` or a
`N.` numbering. -/
def isBulletLine (line : String) : Bool :=
  (match line.toList with
   | c :: _ => c = '•' || c = '-' || c = '▪' || c = '→'
   | [] => false) || numDotStart line.toList

/-- The marker strip at line 409:
`re.sub(r'^[•\-▪→\d.)\s]+', '', line).strip()`. -/
def stripBulletMarks (line : String) : String :=
  pyStrip (String.mk (line.toList.dropWhile fun c =>
    c = '•' || c = '-' || c = '▪' || c = '→' || c.isDigit || c = '.' || c = ')' ||
      isSpaceCh c))

/-- One iteration of the description loop (lines 405-413). -/
def descStep (acc : List String) (rawLine : String) : List String :=
  let line := pyStrip rawLine
  if line = "" then acc
  else if isBulletLine line then
    (let d := stripBulletMarks line
     if d = "" then acc else acc ++ [d])
  else if acc.length < 5 then acc ++ [line]
  else acc

/-- The description list gathered for one experience entry from the lines
after its first line. -/
def collectDescriptions (lines : List String) : List String :=
  lines.foldl descStep []

/-- Claim C6 (counterexample): six bullet lines produce six description
lines — the 5-line limit applies only to non-bullet lines, so the cap in
the claim does not hold. -/
theorem c6_counterexample :
    collectDescriptions ["• a1", "• a2", "• a3", "• a4", "• a5", "• a6"] =
      ["a1", "a2", "a3", "a4", "a5", "a6"] ∧
    5 < (collectDescriptions ["• a1", "• a2", "• a3", "• a4", "• a5", "• a6"]).length := by
  exact ⟨by decide, by decide⟩

theorem descStep_len_bound (acc : List String) (l : String) :
    max (descStep acc l).length 5 ≤
      max acc.length 5 + (if isBulletLine (pyStrip l) then 1 else 0) := by
  simp only [descStep]
  by_cases h1 : pyStrip l = ""
  · simp only [h1, if_pos, if_true, reduceIte]
    have : isBulletLine "" = false := rfl
    rw [h1] at *
    simp [this]
  · by_cases h2 : isBulletLine (pyStrip l)
    · by_cases h3 : stripBulletMarks (pyStrip l) = ""
      · simp only [h1, h2, h3, if_false, if_true, reduceIte, ite_true, ite_false]
        simp [h1, h2, h3]
      · simp only [h1, h2, h3, ite_true, ite_false]
        simp [h1, h2, h3, List.length_append]
    · by_cases h4 : acc.length < 5
      · simp [h1, h2, h4, List.length_append]
        omega
      · simp [h1, h2, h4]

theorem descFold_len_bound :
    ∀ (lines : List String) (acc : List String),
      (lines.foldl descStep acc).length ≤
        max acc.length 5 + lines.countP (fun l => isBulletLine (pyStrip l))
  | [], acc => by
    simp only [List.foldl_nil, List.countP_nil]
    omega
  | l :: ls, acc => by
    rw [List.foldl_cons]
    have ih := descFold_len_bound ls (descStep acc l)
    have hstep := descStep_len_bound acc l
    rw [List.countP_cons]
    by_cases h : isBulletLine (pyStrip l)
    · simp only [h, if_pos, reduceIte] at hstep ⊢
      omega
    · simp only [h] at hstep ⊢
      simp at hstep ⊢
      omega

theorem descStep_bullet (acc : List String) : descStep acc "• x" = acc ++ ["x"] := rfl

theorem descFold_replicate :
    ∀ (n : ℕ) (acc : List String),
      (List.replicate n "• x").foldl descStep acc = acc ++ List.replicate n "x"
  | 0, acc => by simp
  | n + 1, acc => by
    rw [List.replicate_succ, List.foldl_cons, descStep_bullet,
      descFold_replicate n (acc ++ ["x"])]
    simp [List.replicate_succ, List.append_assoc]

/-- Claim C6 (amended): bullet-marked lines are always appended (marker
stripped, skipped only when empty after stripping) and non-bullet non-empty
lines only while fewer than 5 description lines have been gathered — so an
entry's description length is at most 5 plus its number of bullet lines,
and it DOES grow without bound in the number of bullet lines (n bullet
lines alone yield n description lines). -/
theorem c6_description_growth :
    (∀ lines : List String,
      (collectDescriptions lines).length ≤
        5 + lines.countP (fun l => isBulletLine (pyStrip l))) ∧
    (∀ n : ℕ, (collectDescriptions (List.replicate n "• x")).length = n) := by
  constructor
  · intro lines
    have := descFold_len_bound lines []
    simpa [collectDescriptions] using this
  · intro n
    unfold collectDescriptions
    rw [descFold_replicate n []]
    simp

/-! ## Project technologies (`ResumeParser.extract_projects`, lines 444-462)

For each project entry the extractor walks the entry's lines after the
first: a non-empty stripped line containing one of the tech-stack markers is
scanned against the whole skills taxonomy with a plain substring test and
every matching skill is APPENDED AS STORED in the taxonomy (lowercase), with
no de-duplication — `project['technologies'].append(skill)` at line 457.
Other non-empty lines become description lines. -/

/-- The tech-stack markers tested at line 451. -/
def techMarkers : List String :=
  ["technologies:", "tech stack:", "built with:", "using:"]

/-- `any(tech in line.lower() for tech in [...])` at line 451. -/
def isTechLine (line : String) : Bool :=
  techMarkers.any fun m => seqIn m.toList (lowerChars line.toList)

/-- The taxonomy scan of one tech line (lines 453-457): every skill of
every category whose lowercase form is a substring of the lowered line is
appended, in taxonomy order. -/
def techsFromLine (line : String) : List String :=
  skillsDb.foldl
    (fun acc p =>
      acc ++ p.2.filter fun sk => seqIn (lowerChars sk.toList) (lowerChars line.toList))
    []

/-- One iteration of the project line loop (lines 445-459), restricted to
the technologies accumulator. -/
def projTechStep (acc : List String) (rawLine : String) : List String :=
  let line := pyStrip rawLine
  if line = "" then acc
  else if isTechLine line then acc ++ techsFromLine line
  else acc

/-- The technologies list gathered for one project entry from the lines
after its name line. -/
def projTechnologies (lines : List String) : List String :=
  lines.foldl projTechStep []

/-- Claim C7 (counterexample): a tech line "Technologies: Swift" yields
`["swift", "swift"]` — the raw lowercase taxonomy string, not the canonical
display form "Swift", and appended twice because "swift" occurs in both the
programming_languages and mobile categories. -/
theorem c7_counterexample :
    projTechnologies ["Technologies: Swift"] = ["swift", "swift"] ∧
    ¬ (["swift", "swift"] : List String).Nodup ∧
    "Swift" ∉ projTechnologies ["Technologies: Swift"] := by
  refine ⟨by decide, by decide, by decide⟩

theorem foldl_append_filter_mem (line : String) :
    ∀ (dbs : List (String × List String)) (acc : List String) (x : String),
      x ∈ dbs.foldl
        (fun acc p =>
          acc ++ p.2.filter fun sk => seqIn (lowerChars sk.toList) (lowerChars line.toList))
        acc →
      x ∈ acc ∨ ∃ p ∈ dbs, x ∈ p.2
  | [], acc, x, h => Or.inl h
  | p :: rest, acc, x, h => by
    rcases foldl_append_filter_mem line rest
        (acc ++ p.2.filter fun sk => seqIn (lowerChars sk.toList) (lowerChars line.toList)) x h with
      hm | ⟨q, hq, hx⟩
    · rcases List.mem_append.1 hm with hm | hm
      · exact Or.inl hm
      · exact Or.inr ⟨p, by simp, List.mem_of_mem_filter hm⟩
    · exact Or.inr ⟨q, by simp [hq], hx⟩

theorem mem_techsFromLine (line : String) (x : String) (h : x ∈ techsFromLine line) :
    ∃ p ∈ skillsDb, x ∈ p.2 := by
  rcases foldl_append_filter_mem line skillsDb [] x h with hm | hm
  · simp at hm
  · exact hm

theorem projTechFold_mem :
    ∀ (lines : List String) (acc : List String) (x : String),
      x ∈ lines.foldl projTechStep acc →
      x ∈ acc ∨ ∃ p ∈ skillsDb, x ∈ p.2
  | [], acc, x, h => Or.inl h
  | l :: ls, acc, x, h => by
    rw [List.foldl_cons] at h
    rcases projTechFold_mem ls (projTechStep acc l) x h with hm | hm
    · simp only [projTechStep] at hm
      split_ifs at hm with h1 h2
      · exact Or.inl hm
      · rcases List.mem_append.1 hm with hm | hm
        · exact Or.inl hm
        · exact Or.inr (mem_techsFromLine _ x hm)
      · exact Or.inl hm
    · exact Or.inr hm

theorem projTechFold_no_marker :
    ∀ (lines : List String) (acc : List String),
      (∀ l ∈ lines, isTechLine (pyStrip l) = false) →
      lines.foldl projTechStep acc = acc
  | [], acc, _ => rfl
  | l :: ls, acc, h => by
    rw [List.foldl_cons]
    have hstep : projTechStep acc l = acc := by
      simp only [projTechStep]
      split_ifs with h1 h2
      · rfl
      · exact absurd h2 (by simp [h l (by simp)])
      · rfl
    rw [hstep]
    exact projTechFold_no_marker ls acc fun l' hl' => h l' (by simp [hl'])

/-- Claim C7 (amended): the technologies field of a project entry is a list
(not a set — duplicates occur whenever a skill appears in several taxonomy
categories or several tech lines) of taxonomy skill strings as stored
(lowercase, not the canonical display form), and it is populated only from
lines containing a tech-stack marker: with no marker line it stays empty,
and every element is a member of some taxonomy category. -/
theorem c7_technologies_from_db (lines : List String) :
    (∀ x ∈ projTechnologies lines, ∃ p ∈ skillsDb, x ∈ p.2) ∧
    ((∀ l ∈ lines, isTechLine (pyStrip l) = false) → projTechnologies lines = []) := by
  constructor
  · intro x hx
    rcases projTechFold_mem lines [] x hx with hm | hm
    · simp at hm
    · exact hm
  · intro h
    exact projTechFold_no_marker lines [] h

/-- Witness for `c7_technologies_from_db`: a project with no tech-stack
marker line gets an empty technologies list. -/
theorem c7_technologies_from_db_witness :
    projTechnologies ["A web dashboard", "Deployed to production"] = [] :=
  (c7_technologies_from_db ["A web dashboard", "Deployed to production"]).2 (by decide)

/-! ## Education de-duplication (`ResumeParser.extract_education`, lines 320-329)

After collecting entries for all degree-pattern matches, the extractor
filters them through a `seen` set keyed on `(degree, institution)`, keeping
the first entry for each key.  `extract_education` returns exactly this
filtered list, so the claim is settled for every possible collected list. -/

/-- One education entry (lines 288-293). -/
structure EduEntry where
  degree : String
  institution : Option String
  year : Option String
  gpa : Option String
deriving DecidableEq

/-- The de-duplication key `(edu['degree'], edu['institution'])`. -/
def eduKey (e : EduEntry) : String × Option String :=
  (e.degree, e.institution)

/-- The seen-set filter loop (lines 321-327). -/
def dedupGo (seen : List (String × Option String)) : List EduEntry → List EduEntry
  | [] => []
  | e :: rest =>
    if eduKey e ∈ seen then dedupGo seen rest
    else e :: dedupGo (eduKey e :: seen) rest

/-- The de-duplication pass applied to the collected entries (line 320-329);
`extract_education` returns `dedupEducation` of the list it accumulated. -/
def dedupEducation (entries : List EduEntry) : List EduEntry :=
  dedupGo [] entries

theorem dedupGo_countP :
    ∀ (entries : List EduEntry) (seen : List (String × Option String))
      (k : String × Option String),
      (dedupGo seen entries).countP (fun e => decide (eduKey e = k)) =
        if k ∉ seen ∧ entries.any (fun e => decide (eduKey e = k)) then 1 else 0
  | [], seen, k => by simp [dedupGo]
  | e :: rest, seen, k => by
    unfold dedupGo
    by_cases hseen : eduKey e ∈ seen
    · rw [if_pos hseen, dedupGo_countP rest seen k]
      by_cases hek : eduKey e = k
      · subst hek
        simp [hseen]
      · simp only [List.any_cons]
        congr 1
        simp [hek]
    · rw [if_neg hseen]
      rw [List.countP_cons, dedupGo_countP rest (eduKey e :: seen) k]
      by_cases hek : eduKey e = k
      · subst hek
        simp [hseen]
      · simp only [List.any_cons, decide_eq_true_eq, hek]
        have hmem : (k ∈ eduKey e :: seen) ↔ k ∈ seen := by
          simp [Ne.symm hek]
        simp only [hmem]
        simp [hek]
  termination_by entries => entries.length

theorem dedupGo_keys_not_seen :
    ∀ (entries : List EduEntry) (seen : List (String × Option String)),
      (∀ e ∈ dedupGo seen entries, eduKey e ∉ seen) ∧
      (dedupGo seen entries).Pairwise (fun a b => eduKey a ≠ eduKey b)
  | [], seen => by simp [dedupGo]
  | e :: rest, seen => by
    unfold dedupGo
    by_cases hseen : eduKey e ∈ seen
    · rw [if_pos hseen]
      exact dedupGo_keys_not_seen rest seen
    · rw [if_neg hseen]
      obtain ⟨ih1, ih2⟩ := dedupGo_keys_not_seen rest (eduKey e :: seen)
      constructor
      · intro e' he'
        rcases List.mem_cons.1 he' with rfl | he'
        · exact hseen
        · intro hmem
          exact ih1 e' he' (by simp [hmem])
      · refine List.Pairwise.cons ?_ ih2
        intro e' he' heq
        exact ih1 e' he' (by simp [heq])
  termination_by entries => entries.length

/-- Claim C8: the list returned by the education extractor contains no two
entries with the same (degree, institution) pair, and for every key that
occurs among the collected entries exactly one entry survives. -/
theorem c8_education_dedup (entries : List EduEntry) :
    (dedupEducation entries).Pairwise (fun a b => eduKey a ≠ eduKey b) ∧
    ∀ k : String × Option String,
      (dedupEducation entries).countP (fun e => decide (eduKey e = k)) =
        if entries.any (fun e => decide (eduKey e = k)) then 1 else 0 := by
  constructor
  · exact (dedupGo_keys_not_seen entries []).2
  · intro k
    rw [dedupEducation, dedupGo_countP entries [] k]
    simp

/-! ## Skills extraction (`ResumeParser.extract_skills`, lines 246-259)

For every skill of every taxonomy category the source searches
`r'\b' + re.escape(skill.lower()) + r'\b'` in the lowered text, collects
the canonicalized names in a set and returns `sorted(list(found_skills))`.
The `\b` boundary is word-char-ness differing across a position (ends of
the text count as non-word); canonicalization is `str.title()` for skills
longer than 3 characters, `str.upper()` otherwise.  The Python set followed
by `sorted` is modelled by list collection, `dedup` and insertion sort by
code-point lexicographic order — Python's `sorted` on strings. -/

/-- Match of `needle` at the head of `hay` returning the remaining text. -/
def dropSeq : List Char → List Char → Option (List Char)
  | [], hay => some hay
  | _ :: _, [] => none
  | a :: as, b :: bs => if a = b then dropSeq as bs else none

/-- Python `\b` between two (optional) characters: the word-char-ness of
the two sides differs; a missing side counts as non-word. -/
def boundaryOk (left right : Option Char) : Bool :=
  (match left with | some c => isWordCh c | none => false) !=
    (match right with | some c => isWordCh c | none => false)

/-- Match of `\b needle \b` exactly at the current position, where `prev`
is the character just before the position. -/
def wbMatchAt (needle hay : List Char) (prev : Option Char) : Bool :=
  match dropSeq needle hay with
  | none => false
  | some rest => boundaryOk prev needle.head? && boundaryOk needle.getLast? rest.head?

/-- `re.search(r'\b<needle>\b', hay)`: try every position left to right. -/
def wbSearch (needle : List Char) : Option Char → List Char → Bool
  | prev, [] => wbMatchAt needle [] prev
  | prev, c :: rest => wbMatchAt needle (c :: rest) prev || wbSearch needle (some c) rest

/-- Whole-word occurrence of a (lowercased) skill in the lowered text
(line 255-256). -/
def skillMatches (skill : String) (textLower : List Char) : Bool :=
  wbSearch (lowerChars skill.toList) none textLower

/-- Python `str.title()`: alphabetic characters are uppercased after a
non-alphabetic character and lowercased otherwise. -/
def pyTitleAux : Bool → List Char → List Char
  | _, [] => []
  | prevAlpha, c :: cs =>
    (if c.isAlpha then (if prevAlpha then c.toLower else c.toUpper) else c) ::
      pyTitleAux c.isAlpha cs

/-- Canonical display form of a matched skill (line 257):
`skill.title() if len(skill) > 3 else skill.upper()`. -/
def canonicalSkill (skill : String) : String :=
  if skill.length > 3 then String.mk (pyTitleAux false skill.toList)
  else String.mk (skill.toList.map Char.toUpper)

/-- The canonical names of all matching skills, in taxonomy order
(lines 248-257). -/
def collectSkills (text : String) : List String :=
  skillsDb.foldl
    (fun acc p =>
      acc ++ (p.2.filter fun sk => skillMatches sk (lowerChars text.toList)).map canonicalSkill)
    []

/-- Code-point comparison of strings as character lists: Python's `<=` on
`str` (lexicographic by code point, a proper initial segment is smaller). -/
def charListLe : List Char → List Char → Bool
  | [], _ => true
  | _ :: _, [] => false
  | a :: as, b :: bs =>
    if a.toNat < b.toNat then true
    else if b.toNat < a.toNat then false
    else charListLe as bs

/-- Lexicographic order on strings used to model Python's `sorted`. -/
def strLe (a b : String) : Prop :=
  charListLe a.toList b.toList = true

instance : DecidableRel strLe := fun a b =>
  inferInstanceAs (Decidable (charListLe a.toList b.toList = true))

theorem charListLe_total : ∀ x y : List Char, charListLe x y = true ∨ charListLe y x = true
  | [], _ => Or.inl rfl
  | _ :: _, [] => Or.inr rfl
  | a :: as, b :: bs => by
    rcases Nat.lt_trichotomy a.toNat b.toNat with h | h | h
    · left
      simp [charListLe, h]
    · rcases charListLe_total as bs with ih | ih
      · left
        simp [charListLe, h, ih]
      · right
        simp [charListLe, h.symm, ih]
    · right
      simp [charListLe, h]

theorem charListLe_trans :
    ∀ x y z : List Char, charListLe x y = true → charListLe y z = true →
      charListLe x z = true
  | [], _, _, _, _ => rfl
  | _ :: _, [], _, h, _ => by simp [charListLe] at h
  | _ :: _, _ :: _, [], _, h => by simp [charListLe] at h
  | a :: as, b :: bs, c :: cs, h1, h2 => by
    simp only [charListLe] at h1 h2 ⊢
    split_ifs at h1 h2 ⊢ with hab hba hbc hcb hac hca <;>
      first
      | rfl
      | omega
      | (exact charListLe_trans as bs cs (by assumption) (by assumption))

instance : IsTotal String strLe :=
  ⟨fun a b => charListLe_total a.toList b.toList⟩

instance : IsTrans String strLe :=
  ⟨fun a b c => charListLe_trans a.toList b.toList c.toList⟩

/-- The skills extractor `extract_skills` (lines 246-259): collect matching
canonical names, de-duplicate (the Python set) and sort. -/
def extract_skills (text : String) : List String :=
  List.insertionSort strLe (collectSkills text).dedup

/-- Claim C9: skill extraction is deterministic (two runs on the same text
give the same list), and its result is duplicate-free and sorted in the
code-point lexicographic order of Python's `sorted`. -/
theorem c9_extract_skills_sorted (text : String) :
    extract_skills text = extract_skills text ∧
    (extract_skills text).Nodup ∧
    (extract_skills text).Sorted strLe := by
  refine ⟨rfl, ?_, List.sorted_insertionSort strLe _⟩
  have hperm := List.perm_insertionSort strLe (collectSkills text).dedup
  exact hperm.nodup_iff.2 (List.nodup_dedup _)

/-! ## Saving a parsed resume (`utils.save_parsed_resume`, utils.py lines 7-21,
called from `main.parse_single_resume`, main.py lines 26-28)

`save_parsed_resume` builds the output filename from
`parsed_data.get('contact', {}).get('name', 'unknown')`.  Python's
`dict.get` returns the stored value whenever the KEY is present — the
`'unknown'` default applies only when the key is absent.  The contact dict
built by `extract_contact_info` (resume_parser.py lines 172-182) always
contains the `'name'` key, with value `None` when `extract_name` found
nothing, so a degraded-but-successful parse reaches
`name.replace(' ', '_')` with `name = None` and raises `AttributeError`;
`parse_single_resume` calls `save_parsed_resume` outside any handler.
A contact-field value is `None` or a string; the filename construction
either returns the name or raises. -/

/-- Value stored under a contact key in the parsed dict. -/
inductive PyStrVal where
  | vnone : PyStrVal
  | vstr : String → PyStrVal
deriving DecidableEq

/-- Python `dict.get(key, default)`: the stored value (even `None`) when the
key is present, the default only when it is absent. -/
def pyGetD (d : List (String × PyStrVal)) (k : String) (dflt : PyStrVal) : PyStrVal :=
  match d.lookup k with
  | some v => v
  | none => dflt

/-- Embed `Option String` as the Python value stored for a contact field. -/
def optToPy : Option String → PyStrVal
  | none => PyStrVal.vnone
  | some s => PyStrVal.vstr s

/-- The contact dict built by `extract_contact_info` (lines 172-182): all
six keys are always present. -/
def extract_contact_info (name email phone linkedin github website : Option String) :
    List (String × PyStrVal) :=
  [("name", optToPy name), ("email", optToPy email), ("phone", optToPy phone),
   ("linkedin", optToPy linkedin), ("github", optToPy github),
   ("website", optToPy website)]

/-- Filename construction of `save_parsed_resume` (utils.py lines 12-14):
`f"{name.replace(' ', '_')}_{timestamp}.json"`, raising `AttributeError`
when `name` is `None`. -/
def buildFilename (contact : List (String × PyStrVal)) (timestamp : String) :
    PyResult String :=
  match pyGetD contact "name" (PyStrVal.vstr "unknown") with
  | PyStrVal.vstr s =>
    PyResult.ok
      (String.mk (s.toList.map fun c => if c = ' ' then '_' else c) ++ "_" ++ timestamp ++ ".json")
  | PyStrVal.vnone =>
    PyResult.exn "AttributeError: 'NoneType' object has no attribute 'replace'"

/-- Claim C10: a successful parse whose contact name is null makes
`save_parsed_resume` raise while building the filename — the contact dict
always contains the `'name'` key, so a `None` value bypasses the
`'unknown'` default (which kicks in only for an absent key, as the third
conjunct shows), and the resume cannot be saved in single-file mode. -/
theorem c10_save_null_name_raises
    (email phone linkedin github website : Option String) (ts : String) :
    buildFilename (extract_contact_info none email phone linkedin github website) ts =
      PyResult.exn "AttributeError: 'NoneType' object has no attribute 'replace'" ∧
    (∀ (rest : List (String × PyStrVal)) (ts2 : String),
      buildFilename (("name", PyStrVal.vnone) :: rest) ts2 =
        PyResult.exn "AttributeError: 'NoneType' object has no attribute 'replace'") ∧
    (∀ ts3 : String, buildFilename [] ts3 = PyResult.ok ("unknown_" ++ ts3 ++ ".json")) := by
  refine ⟨rfl, fun rest ts2 => rfl, fun ts3 => ?_⟩
  have huk : String.mk ("unknown".toList.map fun c => if c = ' ' then '_' else c) =
      "unknown" := by decide
  show PyResult.ok _ = _
  rw [huk]
  have h1 : ("unknown" ++ "_" : String) = "unknown_" := by decide
  rw [h1]
